import Mathlib

/-!
Verification of the changelog-automation scripts
(`scripts/changelog/utils.py` and `scripts/changelog/update-changelog.py`).

Strings are modelled as `List Char` (Python `str` indexing and slicing is by
code point, matching list positions).  File and git I/O, interactive prompts
and colored console output are external collaborators: the raw commits read
from git, the current date, and the repository-URL resolution from
`package.json` are passed in as parameters, and the file write performed by
`update_changelog_file` is modelled by the `Except` value it would write
(`.error` means the exception is raised before any write occurs).
-/

/-- Models Python `s.startswith(pat)` / a literal match at the head of `l`. -/
def startsWithL : List Char → List Char → Bool
  | [], _ => true
  | _ :: _, [] => false
  | p :: ps, c :: cs => p == c && startsWithL ps cs

/-- Models Python `pat in l` (substring containment). -/
def hasSubstrB : List Char → List Char → Bool
  | [], pat => startsWithL pat []
  | c :: t, pat => startsWithL pat (c :: t) || hasSubstrB t pat

/-- ASCII model of the regex class `\w` used in the conventional-commit pattern. -/
def isWordChar (c : Char) : Bool := c.isAlphanum || c == '_'

/-- ASCII model of the regex class `\s` (Python whitespace). -/
def isPySpace (c : Char) : Bool :=
  c == ' ' || c == '\t' || c == '\n' || c == '\r' || c == '\x0b' || c == '\x0c'

/-- One version-control commit as ingested (see `parse_commits` in
`scripts/changelog/utils.py`, lines 140-147): full hash, first message line,
remaining lines, author. -/
structure RawCommit where
  hash : List Char
  subject : List Char
  body : List Char
  author : List Char
deriving DecidableEq, Repr

/-- A parsed commit record as produced by `parse_commit_message`.  The Python
code returns a dict; in the `ignore` case the dict lacks the `scope` and `pr`
keys, which no downstream code reads — modelled here as `none`. -/
structure ParsedCommit where
  hash : List Char
  type_ : List Char
  scope : Option (List Char)
  subject : List Char
  body : List Char
  author : List Char
  pr : Option (List Char)
deriving DecidableEq, Repr

/-- Leftmost match of the regex `#(\d+)` (a `#` followed by at least one
digit), returning the greedy digit run — `re.search` in `extract_pr_number`. -/
def findPr : List Char → Option (List Char)
  | [] => none
  | '#' :: r =>
    let ds := r.takeWhile Char.isDigit
    if ds.isEmpty then findPr r else some ds
  | _ :: r => findPr r

/-- Embeds `extract_pr_number` (utils.py lines 241-263): search the subject,
then — when the body is non-empty (truthy) — the body, for `#(\d+)`. -/
def extract_pr_number (subject body : List Char) : Option (List Char) :=
  match findPr subject with
  | some n => some n
  | none => if body.isEmpty then none else findPr body

/-- Embeds `infer_commit_type` (utils.py lines 207-238): keyword search over
the lowercased subject, in the priority order of the source. -/
def infer_commit_type (subject : List Char) : List Char :=
  let lower := subject.map Char.toLower
  if hasSubstrB lower "fix".toList || hasSubstrB lower "bug".toList
      || hasSubstrB lower "patch".toList then "fix".toList
  else if hasSubstrB lower "add".toList || hasSubstrB lower "new".toList
      || hasSubstrB lower "feat".toList then "feat".toList
  else if hasSubstrB lower "update".toList || hasSubstrB lower "change".toList
      || hasSubstrB lower "modify".toList then "change".toList
  else if hasSubstrB lower "remove".toList || hasSubstrB lower "delete".toList then
    "remove".toList
  else if hasSubstrB lower "security".toList || hasSubstrB lower "vuln".toList then
    "security".toList
  else if hasSubstrB lower "deprecate".toList then "deprecate".toList
  else if hasSubstrB lower "doc".toList || hasSubstrB lower "readme".toList then
    "docs".toList
  else if hasSubstrB lower "test".toList then "test".toList
  else if hasSubstrB lower "chore".toList || hasSubstrB lower "build".toList
      || hasSubstrB lower "ci".toList then "chore".toList
  else "change".toList

/-- Models `re.match(r"^(\w+)(\([^)]+\))?: (.+)$", subject)`: on success,
returns the (not yet lowercased) type word, the optional scope with its
parentheses stripped, and the description after the colon-space.  The greedy
`\w+` run is maximal (no backtracking can help: the character after a shorter
run is again a word character, which can match neither `(` nor `:`), the
regex `[^)]+` of the scope necessarily stops at the first `)`, and `$` accepts the end of
the string or a position before a single trailing newline. -/
def matchConventional (s : List Char) : Option (List Char × Option (List Char) × List Char) :=
  let w := s.takeWhile isWordChar
  if w.isEmpty then none
  else
    let rest := s.dropWhile isWordChar
    let scopeRest : Option (List Char) × List Char :=
      match rest with
      | '(' :: r =>
        let inner := r.takeWhile (fun c => c ≠ ')')
        match r.dropWhile (fun c => c ≠ ')') with
        | ')' :: r3 => if inner.isEmpty then (none, rest) else (some inner, r3)
        | _ => (none, rest)
      | _ => (none, rest)
    match scopeRest.2 with
    | ':' :: ' ' :: d =>
      let core := d.takeWhile (fun c => c ≠ '\n')
      let tail := d.dropWhile (fun c => c ≠ '\n')
      if core.isEmpty then none
      else if tail.isEmpty then some (w, scopeRest.1, core)
      else if tail == ['\n'] then some (w, scopeRest.1, core)
      else none
    | _ => none

/-- Embeds `parse_commit_message` (utils.py lines 157-204). -/
def parse_commit_message (c : RawCommit) : ParsedCommit :=
  if c.subject.isEmpty then
    { hash := c.hash, type_ := "ignore".toList, scope := none,
      subject := c.subject, body := c.body, author := c.author, pr := none }
  else if startsWithL "Merge ".toList c.subject then
    { hash := c.hash, type_ := "ignore".toList, scope := none,
      subject := c.subject, body := c.body, author := c.author, pr := none }
  else
    match matchConventional c.subject with
    | some (w, sc, d) =>
      { hash := c.hash.take 8, type_ := w.map Char.toLower, scope := sc,
        subject := d, body := c.body, author := c.author,
        pr := extract_pr_number c.subject c.body }
    | none =>
      { hash := c.hash.take 8, type_ := infer_commit_type c.subject, scope := none,
        subject := c.subject, body := c.body, author := c.author,
        pr := extract_pr_number c.subject c.body }

/-- Embeds `parse_commits` (utils.py lines 114-154) applied to the raw commit
records the git collaborator supplies (hash, first message line, remaining
lines, author): parse each and drop the `ignore`-typed ones. -/
def parse_commits (raws : List RawCommit) : List ParsedCommit :=
  (raws.map parse_commit_message).filter (fun p => p.type_ ≠ "ignore".toList)

instance {ε α : Type} [DecidableEq ε] [DecidableEq α] : DecidableEq (Except ε α) := fun x y =>
  match x, y with
  | .ok a, .ok b =>
    if h : a = b then .isTrue (by subst h; rfl)
    else .isFalse (fun hc => h (Except.ok.inj hc))
  | .error a, .error b =>
    if h : a = b then .isTrue (by subst h; rfl)
    else .isFalse (fun hc => h (Except.error.inj hc))
  | .ok _, .error _ => .isFalse (fun hc => Except.noConfusion hc)
  | .error _, .ok _ => .isFalse (fun hc => Except.noConfusion hc)

/-- A semantic version as represented by the type `VersionInfo` of the `semver` dependency: numeric major/minor/patch plus optional prerelease and build
identifier lists (each identifier a dot-separated token). -/
structure Version where
  major : Nat
  minor : Nat
  patch : Nat
  prerelease : List (List Char)
  build : List (List Char)
deriving DecidableEq, Repr

/-- Models `VersionInfo.bump_major`: increment major, reset the rest. -/
def bump_major (v : Version) : Version := ⟨v.major + 1, 0, 0, [], []⟩

/-- Models `VersionInfo.bump_minor`: increment minor, reset patch/prerelease/build. -/
def bump_minor (v : Version) : Version := ⟨v.major, v.minor + 1, 0, [], []⟩

/-- Models `VersionInfo.bump_patch`: increment patch, drop prerelease/build. -/
def bump_patch (v : Version) : Version := ⟨v.major, v.minor, v.patch + 1, [], []⟩

/-- Split a char list at the first occurrence of `ch`, reporting whether the
separator was present. -/
def splitFirst (l : List Char) (ch : Char) : List Char × Option (List Char) :=
  match l with
  | [] => ([], none)
  | c :: t =>
    if c == ch then ([], some t)
    else
      let p := splitFirst t ch
      (c :: p.1, p.2)

/-- Split a char list on every `.` (Python `str.split(".")`). -/
def splitDots : List Char → List (List Char)
  | [] => [[]]
  | '.' :: t => [] :: splitDots t
  | c :: t =>
    match splitDots t with
    | [] => [[c]]
    | h :: r => (c :: h) :: r

/-- Digits-to-number conversion for version components. -/
def charsToNat (l : List Char) : Nat :=
  l.foldl (fun a c => a * 10 + (c.toNat - '0'.toNat)) 0

/-- Parse a numeric version component under the semver grammar
`0|[1-9]\d*` (no leading zeros). -/
def parseNumId (l : List Char) : Option Nat :=
  if l.isEmpty then none
  else if l.all Char.isDigit then
    if l.length > 1 && l.headD ' ' == '0' then none else some (charsToNat l)
  else none

/-- Character set allowed in prerelease/build identifiers. -/
def isIdChar (c : Char) : Bool := c.isAlphanum || c == '-'

/-- Validity of one prerelease identifier: `0|[1-9]\d*|\d*[a-zA-Z-][0-9a-zA-Z-]*`. -/
def validPreId (l : List Char) : Bool :=
  !l.isEmpty && l.all isIdChar &&
    (if l.all Char.isDigit then !(l.length > 1 && l.headD ' ' == '0') else true)

/-- Validity of one build identifier: `[0-9a-zA-Z-]+`. -/
def validBuildId (l : List Char) : Bool := !l.isEmpty && l.all isIdChar

/-- Models `semver.VersionInfo.parse` (the check that `validate_version` of the source and `get_next_version` rely on): `MAJOR.MINOR.PATCH` with
optional `-prerelease` and `+build` parts, rejecting anything outside the
strict semver grammar. -/
def parseVersion (l : List Char) : Option Version :=
  let coreBuild := splitFirst l '+'
  let vcorePre := splitFirst coreBuild.1 '-'
  match splitDots vcorePre.1 with
  | [ma, mi, pa] =>
    match parseNumId ma, parseNumId mi, parseNumId pa with
    | some major, some minor, some patch =>
      let pre : Option (List (List Char)) :=
        match vcorePre.2 with
        | none => some []
        | some p =>
          let ids := splitDots p
          if ids.all validPreId then some ids else none
      let bld : Option (List (List Char)) :=
        match coreBuild.2 with
        | none => some []
        | some b =>
          let ids := splitDots b
          if ids.all validBuildId then some ids else none
      match pre, bld with
      | some prerelease, some build => some ⟨major, minor, patch, prerelease, build⟩
      | _, _ => none
    | _, _, _ => none
  | _ => none

/-- Intercalate version identifiers with dots. -/
def joinDots : List (List Char) → List Char
  | [] => []
  | [x] => x
  | x :: r => x ++ '.' :: joinDots r

/-- Models `str(VersionInfo)`: `M.m.p` plus `-prerelease` and `+build` when present. -/
def versionToStr (v : Version) : List Char :=
  Nat.toDigits 10 v.major ++ '.' :: Nat.toDigits 10 v.minor ++ '.' :: Nat.toDigits 10 v.patch
    ++ (if v.prerelease.isEmpty then [] else '-' :: joinDots v.prerelease)
    ++ (if v.build.isEmpty then [] else '+' :: joinDots v.build)

/-- Lexicographic comparison of identifier text by code point (Python string
comparison). -/
def lexLt : List Char → List Char → Bool
  | [], [] => false
  | [], _ :: _ => true
  | _ :: _, [] => false
  | a :: as, b :: bs => if a < b then true else if b < a then false else lexLt as bs

/-- Semver comparison of one prerelease identifier: numeric identifiers
compare numerically and rank below alphanumeric ones. -/
def idLt (a b : List Char) : Bool :=
  match a.all Char.isDigit, b.all Char.isDigit with
  | true, true => charsToNat a < charsToNat b
  | true, false => true
  | false, true => false
  | false, false => lexLt a b

/-- Semver equality of one prerelease identifier. -/
def idEq (a b : List Char) : Bool :=
  match a.all Char.isDigit, b.all Char.isDigit with
  | true, true => charsToNat a == charsToNat b
  | false, false => a == b
  | _, _ => false

/-- Semver comparison of prerelease identifier lists: elementwise, a strict
prefix ranking lower. -/
def preLt : List (List Char) → List (List Char) → Bool
  | [], [] => false
  | [], _ :: _ => true
  | _ :: _, [] => false
  | a :: as, b :: bs => if idLt a b then true else if idEq a b then preLt as bs else false

/-- Standard semantic-version strict order (the function `compare` of the `semver` library):
major/minor/patch numerically, then a release outranks any prerelease of the
same triple, then prerelease identifiers elementwise; build metadata ignored. -/
def vlt (a b : Version) : Bool :=
  if a.major ≠ b.major then decide (a.major < b.major)
  else if a.minor ≠ b.minor then decide (a.minor < b.minor)
  else if a.patch ≠ b.patch then decide (a.patch < b.patch)
  else
    match a.prerelease, b.prerelease with
    | [], _ => false
    | _ :: _, [] => true
    | pa, pb => preLt pa pb

/-- Embeds the automatic branch of `get_next_version` (utils.py lines 91-111;
the interactive branch, lines 64-89, is prompt glue outside the claims).  The
raw commits stand for what `parse_commits()` reads from git.  The only raising operation of the `try` body is `semver.VersionInfo.parse(current_version)`; the
`except` handler prints a warning and then evaluates
`semver.VersionInfo.parse(current_version).bump_patch()`, whose re-parse of
the same string raises again whenever the original parse failed — `.error`
models that uncaught `ValueError`. -/
def get_next_version_auto (raws : List RawCommit) (current : List Char) :
    Except (List Char) (List Char) :=
  let commits := parse_commits raws
  let has_breaking := commits.any (fun c =>
    hasSubstrB c.subject "BREAKING".toList ||
      (!c.body.isEmpty && hasSubstrB c.body "BREAKING CHANGE".toList))
  let has_features := commits.any (fun c =>
    c.type_ == "feat".toList || c.type_ == "add".toList)
  match parseVersion current with
  | some cv =>
    .ok (versionToStr (if has_breaking then bump_major cv
      else if has_features then bump_minor cv
      else bump_patch cv))
  | none =>
    match parseVersion current with
    | some cv => .ok (versionToStr (bump_patch cv))
    | none => .error "ValueError: not a valid SemVer string".toList

/-- The six-bucket grouping dict built by `get_changes_from_git`
(update-changelog.py lines 250-257), fields in the insertion order of the dict. -/
structure Changes where
  Added : List (List Char)
  Changed : List (List Char)
  Deprecated : List (List Char)
  Removed : List (List Char)
  Fixed : List (List Char)
  Security : List (List Char)
deriving DecidableEq, Repr

def emptyChanges : Changes := ⟨[], [], [], [], [], []⟩

/-- The rendered display line for one commit (update-changelog.py lines
260-261): the parsed subject plus an optional PR suffix. -/
def render_entry (p : ParsedCommit) : List Char :=
  p.subject ++ (match p.pr with
    | some n => " [#".toList ++ n ++ "]".toList
    | none => [])

/-- One iteration of the grouping loop of `get_changes_from_git`
(update-changelog.py lines 259-280). -/
def route (acc : Changes) (p : ParsedCommit) : Changes :=
  let e := render_entry p
  if p.type_ = "feat".toList ∨ p.type_ = "add".toList then
    { acc with Added := acc.Added ++ [e] }
  else if p.type_ = "fix".toList ∨ p.type_ = "bugfix".toList then
    { acc with Fixed := acc.Fixed ++ [e] }
  else if p.type_ = "refactor".toList ∨ p.type_ = "perf".toList
      ∨ p.type_ = "improve".toList then
    { acc with Changed := acc.Changed ++ [e] }
  else if p.type_ = "remove".toList then
    { acc with Removed := acc.Removed ++ [e] }
  else if p.type_ = "security".toList then
    { acc with Security := acc.Security ++ [e] }
  else if p.type_ = "deprecate".toList then
    { acc with Deprecated := acc.Deprecated ++ [e] }
  else if p.type_ = "docs".toList ∨ p.type_ = "test".toList
      ∨ p.type_ = "chore".toList ∨ p.type_ = "style".toList then
    acc
  else
    { acc with Changed := acc.Changed ++ [e] }

/-- Embeds `get_changes_from_git` (update-changelog.py lines 236-291): `none`
models the `return None` taken when no commits survive parsing. -/
def get_changes_from_git (raws : List RawCommit) : Option Changes :=
  let commits := parse_commits raws
  if commits.isEmpty then none
  else some (commits.foldl route emptyChanges)

/-- Models Python `dict.get(k)` over an association list, with a missing key
behaving like the Python falsy values `None`/`[]` (the only uses are truthiness tests
and iteration, identical for both). -/
def dget (m : List (List Char × List (List Char))) (k : List Char) : List (List Char) :=
  match m with
  | [] => []
  | p :: t => if p.1 = k then p.2 else dget t k

/-- The dict literal handed from `get_changes_from_git` to `format_changelog`. -/
def changesDict (c : Changes) : List (List Char × List (List Char)) :=
  [("Added".toList, c.Added), ("Changed".toList, c.Changed),
   ("Deprecated".toList, c.Deprecated), ("Removed".toList, c.Removed),
   ("Fixed".toList, c.Fixed), ("Security".toList, c.Security)]

/-- The fixed Keep-a-Changelog category order (utils.py line 281). -/
def orderedCategories : List (List Char) :=
  ["Added".toList, "Changed".toList, "Deprecated".toList,
   "Removed".toList, "Fixed".toList, "Security".toList]

/-- The text appended for one category by the loop body of `format_changelog`
(utils.py lines 283-287): nothing when the bucket is falsy or empty, else the
header block plus one `- item` line per item. -/
def sectionFor (m : List (List Char × List (List Char))) (cat : List Char) : List Char :=
  let items := dget m cat
  if items.isEmpty then []
  else
    "\n### ".toList ++ cat ++ "\n\n".toList
      ++ items.foldl (fun a it => a ++ ("- ".toList ++ it ++ "\n".toList)) []

/-- Embeds `format_changelog` (utils.py lines 266-289).  `today` stands for
`datetime.now().date().isoformat()`, an external input. -/
def format_changelog (m : List (List Char × List (List Char))) (version today : List Char) :
    List Char :=
  orderedCategories.foldl (fun entry cat => entry ++ sectionFor m cat)
    ("## [".toList ++ version ++ "] - ".toList ++ today ++ "\n".toList)

/-- Embeds the change-validation guard and formatting step of
`update_changelog` (update-changelog.py lines 187-193): abort (`none`) when
the grouping produced nothing or every bucket is falsy, otherwise format. -/
def has_any_changes (c : Changes) : Bool :=
  !c.Added.isEmpty || !c.Changed.isEmpty || !c.Deprecated.isEmpty
    || !c.Removed.isEmpty || !c.Fixed.isEmpty || !c.Security.isEmpty

def update_changelog_entry (changes : Option Changes) (version today : List Char) :
    Option (List Char) :=
  match changes with
  | none => none
  | some c =>
    if has_any_changes c then some (format_changelog (changesDict c) version today)
    else none

/-- Length of the match of the regex fragment `\s*\n` at the head of `l`:
greedy `\s*` with backtracking consumes up to and including the last newline
inside the leading whitespace run, and fails when that run holds no newline. -/
def findLastNl : List Char → Option Nat
  | [] => none
  | c :: t =>
    match findLastNl t with
    | some k => some (k + 1)
    | none => if c == '\n' then some 1 else none

def matchWsNl (l : List Char) : Option Nat :=
  findLastNl (l.takeWhile isPySpace)

/-- Models `re.search(r"## \[Unreleased\]\s*\n", content).end()` (utils.py
lines 308-309): the end position of the leftmost match, `none` when the
pattern matches nowhere. -/
def findUnreleasedEnd (l : List Char) (pos : Nat) : Option Nat :=
  match l with
  | [] => none
  | _ :: t =>
    if startsWithL "## [Unreleased]".toList l then
      match matchWsNl (l.drop 15) with
      | some k => some (pos + 15 + k)
      | none => findUnreleasedEnd t (pos + 1)
    else findUnreleasedEnd t (pos + 1)

/-- Fueled model of Python `str.replace(pat, rep)`: replace every
non-overlapping occurrence, scanning left to right.  The fuel (instantiated
with the list length, an upper bound on the steps needed) keeps the recursion
structural so that terms reduce definitionally. -/
def replaceAllF : Nat → List Char → List Char → List Char → List Char
  | 0, l, _, _ => l
  | fuel + 1, l, pat, rep =>
    if !pat.isEmpty && startsWithL pat l then
      rep ++ replaceAllF fuel (l.drop pat.length) pat rep
    else
      match l with
      | [] => []
      | c :: t => c :: replaceAllF fuel t pat rep

def replaceAll (l pat rep : List Char) : List Char := replaceAllF l.length l pat rep

/-- Embeds `repo_url.replace(".git", "").replace("git+", "")` (utils.py
line 353). -/
def normalize_repo_url (url : List Char) : List Char :=
  replaceAll (replaceAll url ".git".toList []) "git+".toList []

/-- The fresh unreleased-comparison link (utils.py line 356). -/
def unreleased_link_line (repo_url version : List Char) : List Char :=
  "[Unreleased]: ".toList ++ repo_url ++ "/compare/v".toList ++ version ++ "...HEAD".toList

/-- The fresh version-tag link (utils.py line 368). -/
def version_link_line (repo_url version : List Char) : List Char :=
  "[".toList ++ version ++ "]: ".toList ++ repo_url ++ "/releases/tag/v".toList ++ version

/-- Fueled model of `re.sub(r"\[Unreleased\]: .+", rep, l)` (utils.py lines
361-365): at each position, the pattern matches the literal prefix followed by
a non-empty greedy run of non-newline characters; every match is replaced and
scanning resumes after it. -/
def subUnrelAllF : Nat → List Char → List Char → List Char
  | 0, _, l => l
  | fuel + 1, rep, l =>
    let run := (l.drop 14).takeWhile (fun c => c ≠ '\n')
    if startsWithL "[Unreleased]: ".toList l && !run.isEmpty then
      rep ++ subUnrelAllF fuel rep (l.drop (14 + run.length))
    else
      match l with
      | [] => []
      | c :: t => c :: subUnrelAllF fuel rep t

def subUnrelAll (rep l : List Char) : List Char := subUnrelAllF l.length rep l

/-- Fueled model of `re.sub(r"(\[Unreleased\]: .+\n)", "\\1" + vlink + "\n", l)`
(utils.py lines 371-375): each matched line is kept and the version link line
is inserted right after it. -/
def subInsertAllF : Nat → List Char → List Char → List Char
  | 0, _, l => l
  | fuel + 1, vlink, l =>
    let run := (l.drop 14).takeWhile (fun c => c ≠ '\n')
    if startsWithL "[Unreleased]: ".toList l && !run.isEmpty
        && (l.drop (14 + run.length)).headD ' ' == '\n' then
      l.take (14 + run.length + 1) ++ vlink ++ '\n'
        :: subInsertAllF fuel vlink (l.drop (14 + run.length + 1))
    else
      match l with
      | [] => []
      | c :: t => c :: subInsertAllF fuel vlink t

def subInsertAll (vlink l : List Char) : List Char := subInsertAllF l.length vlink l

/-- Embeds `update_version_links` (utils.py lines 327-386).  `resolve` stands
for the repository-URL resolution from `package.json` (lines 339-351), the
only step of the `try` body that can raise; `.error` models the exception, on
which the `except` handler (lines 384-386) logs a warning and returns the
content unchanged. -/
def update_version_links (resolve : Except (List Char) (List Char))
    (content version : List Char) : List Char :=
  match resolve with
  | .error _ => content
  | .ok raw =>
    let repo_url := normalize_repo_url raw
    let newUnrel := unreleased_link_line repo_url version
    if hasSubstrB content "[Unreleased]:".toList then
      subInsertAll (version_link_line repo_url version) (subUnrelAll newUnrel content)
    else
      content ++ "\n\n## Links\n".toList ++ newUnrel ++ '\n'
        :: version_link_line repo_url version ++ "\n".toList

/-- Embeds `update_changelog_file` (utils.py lines 292-324) on the document
text read from `CHANGELOG.md`: locate the unreleased anchor (raising
`ValueError`, modelled `.error`, when absent — before any write), splice the
new entry right after it, rewrite the version links, and write the result
(modelled as the `.ok` payload). -/
def update_changelog_file (resolve : Except (List Char) (List Char))
    (changelog_entry version content : List Char) : Except (List Char) (List Char) :=
  match findUnreleasedEnd content 0 with
  | none => .error "Could not find [Unreleased] section in CHANGELOG.md".toList
  | some e =>
    let new_content := content.take e ++ '\n' :: changelog_entry ++ '\n' :: content.drop e
    .ok (update_version_links resolve new_content version)

/-- C9: version bumping is strictly monotonic under standard semantic-version
ordering: for every valid starting version `v` (any numeric triple, with or
without prerelease/build suffix), `v < bump_patch v < bump_minor v <
bump_major v`, so the resolved next version never decreases. -/
theorem c9_bump_monotonic (v : Version) :
    vlt v (bump_patch v) = true ∧ vlt (bump_patch v) (bump_minor v) = true
      ∧ vlt (bump_minor v) (bump_major v) = true := by
  refine ⟨?_, ?_, ?_⟩ <;> simp [vlt, bump_patch, bump_minor, bump_major]

theorem c9_bump_monotonic_witness :
    vlt ⟨1, 2, 3, ["rc".toList], []⟩ (bump_patch ⟨1, 2, 3, ["rc".toList], []⟩) = true ∧
    vlt (bump_patch ⟨1, 2, 3, ["rc".toList], []⟩) (bump_minor ⟨1, 2, 3, ["rc".toList], []⟩) = true ∧
    vlt (bump_minor ⟨1, 2, 3, ["rc".toList], []⟩) (bump_major ⟨1, 2, 3, ["rc".toList], []⟩) = true :=
  c9_bump_monotonic ⟨1, 2, 3, ["rc".toList], []⟩

/-- C2: evaluation of the automatic version resolver at an unparseable current
version.  The claim says the operation falls back to a patch bump without
raising; in the code the fallback of the `except` handler
`semver.VersionInfo.parse(current_version).bump_patch()` re-parses the same
invalid string and raises `ValueError` (modelled `.error`) after printing the
warning, so no patch-bump fallback ever happens for a version-parse failure. -/
theorem c2_fallback_raises_at_invalid_version :
    get_next_version_auto [] "not-a-version".toList
      = .error "ValueError: not a valid SemVer string".toList := by decide

/-- The single commit of the C1 scenario. -/
def breakingCommit : RawCommit :=
  ⟨"abc123def".toList, "BREAKING: remove old API".toList, [], "tester".toList⟩

/-- C1 counterexample: for the single commit with subject
`BREAKING: remove old API` and current version `2.0.0`, automatic mode does
not resolve to `3.0.0`. -/
theorem c1_breaking_scenario_counterexample :
    get_next_version_auto [breakingCommit] "2.0.0".toList ≠ .ok "3.0.0".toList := by decide

/-- C1 amended: the conventional-commit parse consumes `BREAKING` as the type
tag and strips it from the subject, and the breaking-change detector inspects
only the parsed records, so the scenario resolves to a patch bump `2.0.1`,
not a major bump. -/
theorem c1_breaking_scenario_amended :
    (parse_commit_message breakingCommit).type_ = "breaking".toList ∧
    (parse_commit_message breakingCommit).subject = "remove old API".toList ∧
    get_next_version_auto [breakingCommit] "2.0.0".toList = .ok "2.0.1".toList := by decide

/-- C5: a raw commit with empty subject, or one whose subject starts with
`Merge `, is classified `ignore`, and inserting such a commit changes nothing
downstream: the parsed-commit list, the category grouping, and the automatic
version resolution are those of the remaining commits alone. -/
theorem c5_ignore_excluded (c : RawCommit)
    (h : c.subject = [] ∨ startsWithL "Merge ".toList c.subject = true) :
    (parse_commit_message c).type_ = "ignore".toList ∧
    ∀ rest cur, parse_commits (c :: rest) = parse_commits rest ∧
      get_changes_from_git (c :: rest) = get_changes_from_git rest ∧
      get_next_version_auto (c :: rest) cur = get_next_version_auto rest cur := by
  have hty : (parse_commit_message c).type_ = "ignore".toList := by
    rcases h with h | h
    · simp [parse_commit_message, h]
    · unfold parse_commit_message
      rcases hs : c.subject.isEmpty with _ | _
      · rw [if_neg (by simp), if_pos h]
      · rfl
  have hpc : ∀ rest, parse_commits (c :: rest) = parse_commits rest := by
    intro rest
    simp [parse_commits, hty]
  refine ⟨hty, fun rest cur => ⟨hpc rest, ?_, ?_⟩⟩
  · unfold get_changes_from_git
    rw [hpc rest]
  · unfold get_next_version_auto
    rw [hpc rest]

theorem c5_ignore_excluded_witness :
    ((parse_commit_message
        ⟨"h1".toList, "Merge pull request #7".toList, [], "a".toList⟩).type_
      = "ignore".toList) ∧
    parse_commits
        [⟨"h1".toList, "Merge pull request #7".toList, [], "a".toList⟩,
         ⟨"h2".toList, "feat: x".toList, [], "a".toList⟩]
      = parse_commits [⟨"h2".toList, "feat: x".toList, [], "a".toList⟩] ∧
    get_changes_from_git
        [⟨"h1".toList, "Merge pull request #7".toList, [], "a".toList⟩,
         ⟨"h2".toList, "feat: x".toList, [], "a".toList⟩]
      = get_changes_from_git [⟨"h2".toList, "feat: x".toList, [], "a".toList⟩] ∧
    get_next_version_auto
        [⟨"h1".toList, "Merge pull request #7".toList, [], "a".toList⟩,
         ⟨"h2".toList, "feat: x".toList, [], "a".toList⟩] "1.0.0".toList
      = get_next_version_auto [⟨"h2".toList, "feat: x".toList, [], "a".toList⟩]
          "1.0.0".toList := by
  have h := c5_ignore_excluded
    ⟨"h1".toList, "Merge pull request #7".toList, [], "a".toList⟩ (Or.inr (by decide))
  exact ⟨h.1, (h.2 _ "1.0.0".toList).1, (h.2 _ "1.0.0".toList).2.1, (h.2 _ "1.0.0".toList).2.2⟩

lemma findUnreleasedEnd_eq_none (l : List Char)
    (h : hasSubstrB l "## [Unreleased]".toList = false) :
    ∀ pos, findUnreleasedEnd l pos = none := by
  induction l with
  | nil => intro _; rfl
  | cons c t ih =>
    intro pos
    rw [hasSubstrB, Bool.or_eq_false_iff] at h
    obtain ⟨h1, h2⟩ := h
    simp at h1
    simp [findUnreleasedEnd, h1, ih h2]

/-- C3: when the document text contains no occurrence of the unreleased
anchor `## [Unreleased]`, the splice operation raises the structure error
(modelled `.error`) and nothing is written — the write only happens on the
`.ok` path, after the anchor is found. -/
theorem c3_missing_anchor_fails (content entry version : List Char)
    (resolve : Except (List Char) (List Char))
    (h : hasSubstrB content "## [Unreleased]".toList = false) :
    update_changelog_file resolve entry version content
      = .error "Could not find [Unreleased] section in CHANGELOG.md".toList := by
  unfold update_changelog_file
  rw [findUnreleasedEnd_eq_none content h 0]

theorem c3_missing_anchor_fails_witness :
    hasSubstrB "# Changelog\n\n## [1.0.0] - d\n".toList "## [Unreleased]".toList = false ∧
    update_changelog_file (.ok "u".toList) "e".toList "1.0.0".toList
        "# Changelog\n\n## [1.0.0] - d\n".toList
      = .error "Could not find [Unreleased] section in CHANGELOG.md".toList :=
  ⟨by decide, c3_missing_anchor_fails _ _ _ _ (by decide)⟩

/-- C8: a failing repository-URL resolution (any `.error`) never aborts the
splice: the operation still succeeds and returns the document with the entry
inserted right after the anchor and the link footer untouched. -/
theorem c8_link_failure_best_effort (content entry version msg : List Char) (e : Nat)
    (h : findUnreleasedEnd content 0 = some e) :
    update_changelog_file (.error msg) entry version content
      = .ok (content.take e ++ '\n' :: entry ++ '\n' :: content.drop e) := by
  unfold update_changelog_file
  rw [h]
  rfl

theorem c8_link_failure_best_effort_witness :
    findUnreleasedEnd "## [Unreleased]\nbody\n[Unreleased]: u\n".toList 0 = some 16 ∧
    update_changelog_file (.error "no package.json".toList) "## [2.0.0] - d\n".toList
        "2.0.0".toList "## [Unreleased]\nbody\n[Unreleased]: u\n".toList
      = .ok ("## [Unreleased]\nbody\n[Unreleased]: u\n".toList.take 16
          ++ '\n' :: "## [2.0.0] - d\n".toList
          ++ '\n' :: "## [Unreleased]\nbody\n[Unreleased]: u\n".toList.drop 16) :=
  ⟨by decide, c8_link_failure_best_effort _ _ _ _ 16 (by decide)⟩

lemma replaceAllF_of_no_occurrence (pat rep : List Char) :
    ∀ fuel l, hasSubstrB l pat = false → replaceAllF fuel l pat rep = l := by
  intro fuel
  induction fuel with
  | zero => intro l _; rfl
  | succ n ih =>
    intro l h
    match l with
    | [] =>
      rw [hasSubstrB] at h
      simp [replaceAllF, h]
    | c :: t =>
      rw [hasSubstrB, Bool.or_eq_false_iff] at h
      simp [replaceAllF, h.1, ih t h.2]

lemma replaceAll_of_no_occurrence (l pat rep : List Char)
    (h : hasSubstrB l pat = false) : replaceAll l pat rep = l :=
  replaceAllF_of_no_occurrence pat rep l.length l h

/-- C7 counterexample: the normalization is a global `str.replace`, not a
suffix strip — a URL containing `.git` in its interior (neither a trailing
`.git` nor a leading `git+`) loses those characters, so the generated
`[Unreleased]` link line differs from the claimed one that preserves them. -/
theorem c7_url_normalization_counterexample :
    normalize_repo_url "https://h/a.git/b".toList = "https://h/a/b".toList ∧
    unreleased_link_line (normalize_repo_url "https://h/a.git/b".toList) "1.0.0".toList
      ≠ "[Unreleased]: https://h/a.git/b/compare/v1.0.0...HEAD".toList := by decide

/-- C7 amended: the normalization removes every occurrence of `.git` and then
of `git+` anywhere in the URL (Python `str.replace` is global).  For a URL
containing neither substring the characters are preserved unchanged in the
generated link lines, which have exactly the claimed shape; and a URL of the
form `git+<core>.git` is stripped to `<core>`, as on the concrete instance. -/
theorem c7_url_normalization_amended :
    (∀ url version, hasSubstrB url ".git".toList = false →
      hasSubstrB url "git+".toList = false →
      normalize_repo_url url = url ∧
      unreleased_link_line (normalize_repo_url url) version
        = "[Unreleased]: ".toList ++ url ++ "/compare/v".toList ++ version
            ++ "...HEAD".toList ∧
      version_link_line (normalize_repo_url url) version
        = "[".toList ++ version ++ "]: ".toList ++ url ++ "/releases/tag/v".toList
            ++ version) ∧
    normalize_repo_url "git+https://github.com/org/repo.git".toList
      = "https://github.com/org/repo".toList := by
  constructor
  · intro url version h1 h2
    have hn : normalize_repo_url url = url := by
      unfold normalize_repo_url
      rw [replaceAll_of_no_occurrence _ _ _ h1, replaceAll_of_no_occurrence _ _ _ h2]
    exact ⟨hn, by rw [hn]; rfl, by rw [hn]; rfl⟩
  · decide

theorem c7_url_normalization_amended_witness :
    hasSubstrB "https://example.com/org/repo".toList ".git".toList = false ∧
    hasSubstrB "https://example.com/org/repo".toList "git+".toList = false ∧
    (normalize_repo_url "https://example.com/org/repo".toList
        = "https://example.com/org/repo".toList ∧
      unreleased_link_line (normalize_repo_url "https://example.com/org/repo".toList)
          "1.2.3".toList
        = "[Unreleased]: ".toList ++ "https://example.com/org/repo".toList
            ++ "/compare/v".toList ++ "1.2.3".toList ++ "...HEAD".toList ∧
      version_link_line (normalize_repo_url "https://example.com/org/repo".toList)
          "1.2.3".toList
        = "[".toList ++ "1.2.3".toList ++ "]: ".toList
            ++ "https://example.com/org/repo".toList ++ "/releases/tag/v".toList
            ++ "1.2.3".toList) :=
  ⟨by decide, by decide,
    c7_url_normalization_amended.1 _ "1.2.3".toList (by decide) (by decide)⟩

/-- C10: the entry formatter never rejects an input in which all six category
lists are empty or absent — it returns exactly the header line
`## [<version>] - <date>` followed by one newline and no category sections;
the empty-changes abort is the guard of the caller, taken before formatting. -/
theorem c10_empty_mapping_header_only :
    (∀ (m : List (List Char × List (List Char))) (version today : List Char),
      (∀ cat ∈ orderedCategories, dget m cat = []) →
      format_changelog m version today
        = "## [".toList ++ version ++ "] - ".toList ++ today ++ "\n".toList) ∧
    (∀ (c : Changes) (version today : List Char), has_any_changes c = false →
      update_changelog_entry (some c) version today = none) := by
  constructor
  · intro m version today h
    have h1 := h "Added".toList (by decide)
    have h2 := h "Changed".toList (by decide)
    have h3 := h "Deprecated".toList (by decide)
    have h4 := h "Removed".toList (by decide)
    have h5 := h "Fixed".toList (by decide)
    have h6 := h "Security".toList (by decide)
    simp at h1 h2 h3 h4 h5 h6
    simp [format_changelog, orderedCategories, sectionFor, h1, h2, h3, h4, h5, h6]
  · intro c version today h
    simp [update_changelog_entry, h]

theorem c10_empty_mapping_header_only_witness :
    (∀ cat ∈ orderedCategories, dget [("Added".toList, [])] cat = []) ∧
    format_changelog [("Added".toList, [])] "1.0.0".toList "2026-10-12".toList
      = "## [".toList ++ "1.0.0".toList ++ "] - ".toList ++ "2026-10-12".toList
          ++ "\n".toList ∧
    has_any_changes emptyChanges = false ∧
    update_changelog_entry (some emptyChanges) "1.0.0".toList "2026-10-12".toList = none :=
  ⟨by decide,
    c10_empty_mapping_header_only.1 _ _ _ (by decide),
    by decide,
    c10_empty_mapping_header_only.2 emptyChanges _ _ (by decide)⟩

/-- The commit list of the C4 scenario. -/
def scenarioCommits : List RawCommit :=
  [⟨"h1".toList, "feat: add login".toList, [], "a".toList⟩,
   ⟨"h2".toList, "fix: crash on start #42".toList, [], "a".toList⟩,
   ⟨"h3".toList, "docs: typo".toList, [], "a".toList⟩]

/-- C4 counterexample: the scenario does not yield
`{Added: ["add login"], Fixed: ["crash on start [#42]"]}` — the `#42` is not
stripped from the parsed subject when the display line is rendered. -/
theorem c4_scenario_counterexample :
    get_changes_from_git scenarioCommits
      ≠ some ⟨["add login".toList], [], [], [], ["crash on start [#42]".toList], []⟩ := by
  decide

/-- C4 amended: the per-type routing holds as claimed, and the scenario yields
`{Added: ["add login"], Fixed: ["crash on start #42 [#42]"]}` (the rendered
line is the parsed subject — still containing `#42` — plus the ` [#42]`
suffix), with the docs commit dropped and next version `1.3.0`. -/
theorem c4_routing_and_scenario_amended :
    (∀ (acc : Changes) (p : ParsedCommit),
      ((p.type_ = "feat".toList ∨ p.type_ = "add".toList) →
        route acc p = { acc with Added := acc.Added ++ [render_entry p] }) ∧
      ((p.type_ = "fix".toList ∨ p.type_ = "bugfix".toList) →
        route acc p = { acc with Fixed := acc.Fixed ++ [render_entry p] }) ∧
      ((p.type_ = "refactor".toList ∨ p.type_ = "perf".toList
          ∨ p.type_ = "improve".toList) →
        route acc p = { acc with Changed := acc.Changed ++ [render_entry p] }) ∧
      (p.type_ = "remove".toList →
        route acc p = { acc with Removed := acc.Removed ++ [render_entry p] }) ∧
      (p.type_ = "security".toList →
        route acc p = { acc with Security := acc.Security ++ [render_entry p] }) ∧
      (p.type_ = "deprecate".toList →
        route acc p = { acc with Deprecated := acc.Deprecated ++ [render_entry p] }) ∧
      ((p.type_ = "docs".toList ∨ p.type_ = "test".toList ∨ p.type_ = "chore".toList
          ∨ p.type_ = "style".toList) → route acc p = acc) ∧
      (p.type_ ∉ ["feat".toList, "add".toList, "fix".toList, "bugfix".toList,
          "refactor".toList, "perf".toList, "improve".toList, "remove".toList,
          "security".toList, "deprecate".toList, "docs".toList, "test".toList,
          "chore".toList, "style".toList] →
        route acc p = { acc with Changed := acc.Changed ++ [render_entry p] })) ∧
    get_changes_from_git scenarioCommits
      = some ⟨["add login".toList], [], [], [], ["crash on start #42 [#42]".toList], []⟩ ∧
    get_next_version_auto scenarioCommits "1.2.3".toList = .ok "1.3.0".toList := by
  refine ⟨fun acc p => ⟨?_, ?_, ?_, ?_, ?_, ?_, ?_, ?_⟩, by decide, by decide⟩
  · rintro (h | h) <;> simp +decide [route, h]
  · rintro (h | h) <;> simp +decide [route, h]
  · rintro (h | h | h) <;> simp +decide [route, h]
  · intro h; simp +decide [route, h]
  · intro h; simp +decide [route, h]
  · intro h; simp +decide [route, h]
  · rintro (h | h | h | h) <;> simp +decide [route, h]
  · intro h
    simp [List.mem_cons, not_or] at h
    obtain ⟨h1, h2, h3, h4, h5, h6, h7, h8, h9, h10, h11, h12, h13, h14⟩ := h
    simp [route, h1, h2, h3, h4, h5, h6, h7, h8, h9, h10, h11, h12, h13, h14]

theorem c4_routing_and_scenario_amended_witness :
    route emptyChanges ⟨"h".toList, "refactor".toList, none, "tidy".toList, [], "a".toList, none⟩
      = { emptyChanges with
          Changed := emptyChanges.Changed
            ++ [render_entry
                ⟨"h".toList, "refactor".toList, none, "tidy".toList, [], "a".toList, none⟩] } ∧
    get_changes_from_git scenarioCommits
      = some ⟨["add login".toList], [], [], [], ["crash on start #42 [#42]".toList], []⟩ :=
  ⟨(c4_routing_and_scenario_amended.1 emptyChanges _).2.2.1 (Or.inl rfl),
    c4_routing_and_scenario_amended.2.1⟩

/-- Split a text into its lines (Python-style: a trailing newline yields a
final empty line, the empty text is one empty line). -/
def linesOf : List Char → List (List Char)
  | [] => [[]]
  | c :: t =>
    if c = '\n' then [] :: linesOf t
    else
      match linesOf t with
      | [] => [[c]]
      | h :: r => (c :: h) :: r

/-- Rebuild a text from lines, terminating each with a newline. -/
def linesJoin (ls : List (List Char)) : List Char :=
  (ls.map (fun x => x ++ ['\n'])).flatten

/-- The version header line of a formatted entry, without its newline. -/
def headerLine (version today : List Char) : List Char :=
  "## [".toList ++ version ++ "] - ".toList ++ today

/-- The lines contributed by one non-empty category: a blank line, the
category header, a blank line, then one item line per item. -/
def blockOf (m : List (List Char × List (List Char))) (cat : List Char) :
    List (List Char) :=
  [] :: ("### ".toList ++ cat) :: [] :: (dget m cat).map (fun it => "- ".toList ++ it)

/-- The categories whose buckets are truthy and non-empty, in render order. -/
def keptCategories (m : List (List Char × List (List Char))) : List (List Char) :=
  orderedCategories.filter (fun c => !(dget m c).isEmpty)

lemma linesOf_append_nl : ∀ (a b : List Char), '\n' ∉ a →
    linesOf (a ++ '\n' :: b) = a :: linesOf b := by
  intro a
  induction a with
  | nil => intro b _; rfl
  | cons c t ih =>
    intro b ha
    have hc : c ≠ '\n' := fun h => ha (h ▸ List.mem_cons_self c t)
    have ht : ('\n' : Char) ∉ t := fun h => ha (List.mem_cons_of_mem c h)
    show linesOf (c :: (t ++ '\n' :: b)) = (c :: t) :: linesOf b
    rw [linesOf, if_neg hc, ih b ht]

lemma linesJoin_append (a b : List (List Char)) :
    linesJoin (a ++ b) = linesJoin a ++ linesJoin b := by
  simp [linesJoin]

lemma linesOf_linesJoin : ∀ ls : List (List Char), (∀ x ∈ ls, '\n' ∉ x) →
    linesOf (linesJoin ls) = ls ++ [[]] := by
  intro ls
  induction ls with
  | nil => intro _; rfl
  | cons x t ih =>
    intro h
    have hx : ('\n' : Char) ∉ x := h x (List.mem_cons_self x t)
    have ht : ∀ y ∈ t, ('\n' : Char) ∉ y := fun y hy => h y (List.mem_cons_of_mem x hy)
    have : linesJoin (x :: t) = x ++ '\n' :: linesJoin t := by
      simp [linesJoin]
    rw [this, linesOf_append_nl x _ hx, ih ht]
    rfl

lemma foldl_append_flatten {α : Type} (f : α → List Char) :
    ∀ (xs : List α) (acc : List Char),
      xs.foldl (fun a x => a ++ f x) acc = acc ++ (xs.map f).flatten := by
  intro xs
  induction xs with
  | nil => intro acc; simp
  | cons x t ih => intro acc; simp [ih]

lemma sectionFor_eq (m : List (List Char × List (List Char))) (cat : List Char) :
    sectionFor m cat
      = if (dget m cat).isEmpty then [] else linesJoin (blockOf m cat) := by
  unfold sectionFor
  by_cases h : (dget m cat).isEmpty
  · simp [h]
  · rw [if_neg h, if_neg h,
      foldl_append_flatten (fun it => "- ".toList ++ it ++ "\n".toList) _ []]
    have hfun : (fun it : List Char => "- ".toList ++ it ++ "\n".toList)
        = fun it : List Char => ("- ".toList ++ it) ++ ['\n'] := by
      funext it; simp
    rw [hfun]
    simp [linesJoin, blockOf]
    rfl

lemma sections_flatten (m : List (List Char × List (List Char))) :
    ∀ cats : List (List Char),
      (cats.map (sectionFor m)).flatten
        = linesJoin (((cats.filter (fun c => !(dget m c).isEmpty)).map
            (blockOf m)).flatten) := by
  intro cats
  induction cats with
  | nil => rfl
  | cons c t ih =>
    by_cases h : (dget m c).isEmpty
    · have hf : (!(dget m c).isEmpty) = false := by simp [h]
      simp [sectionFor_eq, h, ih, List.filter_cons, hf]
    · have hf : (!(dget m c).isEmpty) = true := by simp [h]
      simp [sectionFor_eq, h, ih, List.filter_cons, hf, linesJoin_append]

lemma format_changelog_shape (m : List (List Char × List (List Char)))
    (v d : List Char) :
    format_changelog m v d
      = linesJoin (headerLine v d :: ((keptCategories m).map (blockOf m)).flatten) := by
  unfold format_changelog
  rw [foldl_append_flatten (sectionFor m) _ _]
  rw [sections_flatten m orderedCategories]
  have : linesJoin (headerLine v d :: ((keptCategories m).map (blockOf m)).flatten)
      = (headerLine v d ++ ['\n'])
        ++ linesJoin (((keptCategories m).map (blockOf m)).flatten) := by
    simp [linesJoin]
  rw [this]
  simp [headerLine, keptCategories]

lemma mem_dget (m : List (List Char × List (List Char))) (k x : List Char)
    (h : x ∈ dget m k) : ∃ p ∈ m, x ∈ p.2 := by
  induction m with
  | nil => simp [dget] at h
  | cons p t ih =>
    by_cases hk : p.1 = k
    · exact ⟨p, List.mem_cons_self p t, by simpa [dget, hk] using h⟩
    · obtain ⟨q, hq, hx⟩ := ih (by simpa [dget, hk] using h)
      exact ⟨q, List.mem_cons_of_mem _ hq, hx⟩

lemma no_nl_in_block (m : List (List Char × List (List Char)))
    (hm : ∀ p ∈ m, ∀ it ∈ p.2, ('\n' : Char) ∉ it)
    (c : List Char) (hcnl : ('\n' : Char) ∉ c) :
    ∀ x ∈ blockOf m c, ('\n' : Char) ∉ x := by
  intro x hx
  simp only [blockOf, List.mem_cons, List.mem_map] at hx
  rcases hx with rfl | rfl | rfl | ⟨it, hit, rfl⟩
  · simp
  · intro hnl
    rcases List.mem_append.mp hnl with h | h
    · exact absurd h (by decide)
    · exact hcnl h
  · simp
  · intro hnl
    rcases List.mem_append.mp hnl with h | h
    · exact absurd h (by decide)
    · obtain ⟨p, hp, hx2⟩ := mem_dget m c it hit
      exact hm p hp it hx2 h

lemma lines_of_format (m : List (List Char × List (List Char))) (v d : List Char)
    (hv : ('\n' : Char) ∉ v) (hd : ('\n' : Char) ∉ d)
    (hm : ∀ p ∈ m, ∀ it ∈ p.2, ('\n' : Char) ∉ it) :
    linesOf (format_changelog m v d)
      = (headerLine v d :: ((keptCategories m).map (blockOf m)).flatten) ++ [[]] := by
  rw [format_changelog_shape]
  apply linesOf_linesJoin
  intro x hx
  rcases List.mem_cons.mp hx with rfl | hx'
  · intro hnl
    simp only [headerLine, List.append_assoc, List.mem_append] at hnl
    rcases hnl with h | h | h | h
    · exact absurd h (by decide)
    · exact hv h
    · exact absurd h (by decide)
    · exact hd h
  · obtain ⟨blk, hblk, hxblk⟩ := List.mem_flatten.mp hx'
    obtain ⟨c, hc, rfl⟩ := List.mem_map.mp hblk
    have hcord : c ∈ orderedCategories := (List.mem_filter.mp hc).1
    have hord : ∀ y ∈ orderedCategories, ('\n' : Char) ∉ y := by decide
    exact no_nl_in_block m hm c (hord c hcord) x hxblk

lemma startsWithL_append_self : ∀ (p r : List Char), startsWithL p (p ++ r) = true := by
  intro p
  induction p with
  | nil => intro r; rfl
  | cons c t ih => intro r; simp [startsWithL, ih]

lemma filter_hdr_items (items : List (List Char)) :
    (items.map (fun it => "- ".toList ++ it)).filter
      (fun x => startsWithL "### ".toList x) = [] := by
  induction items with
  | nil => rfl
  | cons i t ih =>
    simp only [List.map_cons, List.filter_cons]
    rw [show (startsWithL "### ".toList ("- ".toList ++ i)) = false from rfl]
    simpa using ih

lemma filter_hdr_block (m : List (List Char × List (List Char))) (c : List Char) :
    (blockOf m c).filter (fun x => startsWithL "### ".toList x)
      = ["### ".toList ++ c] := by
  rw [blockOf, List.filter_cons, List.filter_cons, List.filter_cons,
    show (startsWithL "### ".toList ([] : List Char)) = false from rfl,
    startsWithL_append_self "### ".toList c, filter_hdr_items]
  simp

lemma filter_hdr_flatten (m : List (List Char × List (List Char))) :
    ∀ cats : List (List Char),
      ((cats.map (blockOf m)).flatten).filter (fun x => startsWithL "### ".toList x)
        = cats.map (fun c => "### ".toList ++ c) := by
  intro cats
  induction cats with
  | nil => rfl
  | cons c t ih =>
    rw [List.map_cons, List.flatten_cons, List.filter_append, filter_hdr_block, ih,
      List.map_cons]
    rfl

/-- The non-blank lines of one category block. -/
def nbBlockOf (m : List (List Char × List (List Char))) (cat : List Char) :
    List (List Char) :=
  ("### ".toList ++ cat) :: (dget m cat).map (fun it => "- ".toList ++ it)

lemma nb_filter_items (items : List (List Char)) :
    (items.map (fun it => "- ".toList ++ it)).filter (fun x => !x.isEmpty)
      = items.map (fun it => "- ".toList ++ it) := by
  induction items with
  | nil => rfl
  | cons i t ih =>
    simp only [List.map_cons, List.filter_cons]
    rw [show (!("- ".toList ++ i).isEmpty) = true from rfl]
    simp [ih]

lemma nb_filter_block (m : List (List Char × List (List Char))) (c : List Char) :
    (blockOf m c).filter (fun x => !x.isEmpty) = nbBlockOf m c := by
  simp only [blockOf, List.filter_cons]
  rw [show (!([] : List Char).isEmpty) = false from rfl,
    show (!("### ".toList ++ c).isEmpty) = true from rfl]
  simp [nb_filter_items, nbBlockOf]

lemma nb_filter_flatten (m : List (List Char × List (List Char))) :
    ∀ cats : List (List Char),
      ((cats.map (blockOf m)).flatten).filter (fun x => !x.isEmpty)
        = (cats.map (nbBlockOf m)).flatten := by
  intro cats
  induction cats with
  | nil => rfl
  | cons c t ih =>
    rw [List.map_cons, List.flatten_cons, List.filter_append, nb_filter_block, ih,
      List.map_cons, List.flatten_cons]

lemma nonblank_lines_of_format (m : List (List Char × List (List Char)))
    (v d : List Char) (hv : ('\n' : Char) ∉ v) (hd : ('\n' : Char) ∉ d)
    (hm : ∀ p ∈ m, ∀ it ∈ p.2, ('\n' : Char) ∉ it) :
    (linesOf (format_changelog m v d)).filter (fun x => !x.isEmpty)
      = headerLine v d :: ((keptCategories m).map (nbBlockOf m)).flatten := by
  rw [lines_of_format m v d hv hd hm, List.filter_append, List.filter_cons,
    show (!(headerLine v d).isEmpty) = true from rfl, nb_filter_flatten]
  simp

lemma mem_of_getLast_opt {α : Type} : ∀ (l : List α) (x : α), l.getLast? = some x → x ∈ l := by
  intro l
  induction l with
  | nil => intro x h; cases h
  | cons a t ih =>
    intro x h
    cases t with
    | nil =>
      simp [List.getLast?] at h
      simp [h]
    | cons b u =>
      rw [List.getLast?_cons_cons] at h
      exact List.mem_cons_of_mem a (ih x h)

lemma chain_vacuous (l : List (List Char))
    (h : ∀ a ∈ l, startsWithL "### ".toList a = false) :
    List.Chain' (fun a b : List Char =>
      startsWithL "### ".toList a = true → startsWithL "- ".toList b = true) l := by
  induction l with
  | nil => exact List.chain'_nil
  | cons a t ih =>
    rw [List.chain'_cons']
    refine ⟨fun y _ hc => ?_, ih fun b hb => h b (List.mem_cons_of_mem a hb)⟩
    rw [h a (List.mem_cons_self a t)] at hc
    exact absurd hc (by decide)

lemma items_not_hdr (items : List (List Char)) :
    ∀ a ∈ items.map (fun it => "- ".toList ++ it),
      startsWithL "### ".toList a = false := by
  intro a ha
  obtain ⟨it, _, rfl⟩ := List.mem_map.mp ha
  rfl

lemma dget_cons_of_ne (m : List (List Char × List (List Char))) (c : List Char)
    (hne : (dget m c).isEmpty = false) : ∃ i rest, dget m c = i :: rest := by
  cases hd : dget m c with
  | nil => rw [hd] at hne; simp at hne
  | cons i rest => exact ⟨i, rest, rfl⟩

lemma chain_nbBlock (m : List (List Char × List (List Char))) (c : List Char)
    (hne : (dget m c).isEmpty = false) :
    List.Chain' (fun a b : List Char =>
      startsWithL "### ".toList a = true → startsWithL "- ".toList b = true)
      (nbBlockOf m c) := by
  rw [nbBlockOf, List.chain'_cons']
  refine ⟨?_, chain_vacuous _ (items_not_hdr _)⟩
  intro y hy _
  obtain ⟨i, rest, hir⟩ := dget_cons_of_ne m c hne
  rw [hir] at hy
  simp at hy
  rw [← hy]
  exact startsWithL_append_self "- ".toList i

lemma block_last_not_hdr (m : List (List Char × List (List Char))) (c : List Char)
    (hne : (dget m c).isEmpty = false) :
    ∀ x ∈ (nbBlockOf m c).getLast?, startsWithL "### ".toList x = false := by
  intro x hx
  obtain ⟨i, rest, hir⟩ := dget_cons_of_ne m c hne
  rw [nbBlockOf, hir, List.map_cons, List.getLast?_cons_cons] at hx
  have hxm : x ∈ ("- ".toList ++ i) :: rest.map (fun it => "- ".toList ++ it) :=
    mem_of_getLast_opt _ x hx
  rcases List.mem_cons.mp hxm with rfl | hxm'
  · rfl
  · exact items_not_hdr rest x hxm'

lemma chain_flatten_blocks (m : List (List Char × List (List Char))) :
    ∀ cats : List (List Char), (∀ c ∈ cats, (dget m c).isEmpty = false) →
      List.Chain' (fun a b : List Char =>
          startsWithL "### ".toList a = true → startsWithL "- ".toList b = true)
        ((cats.map (nbBlockOf m)).flatten) ∧
      ∀ x ∈ ((cats.map (nbBlockOf m)).flatten).getLast?,
        startsWithL "### ".toList x = false := by
  intro cats
  induction cats with
  | nil =>
    intro _
    exact ⟨List.chain'_nil, by simp⟩
  | cons c t ih =>
    intro h
    have hc := h c (List.mem_cons_self c t)
    obtain ⟨iht, ihl⟩ := ih fun b hb => h b (List.mem_cons_of_mem c hb)
    rw [List.map_cons, List.flatten_cons]
    constructor
    · rw [List.chain'_append]
      refine ⟨chain_nbBlock m c hc, iht, ?_⟩
      intro x hx y _ hxx
      rw [block_last_not_hdr m c hc x hx] at hxx
      exact absurd hxx (by decide)
    · intro x hx
      by_cases hrest : (t.map (nbBlockOf m)).flatten = []
      · rw [hrest, List.append_nil] at hx
        exact block_last_not_hdr m c hc x hx
      · rw [List.getLast?_append_of_ne_nil _ hrest] at hx
        exact ihl x hx

/-- C6: the rendered entry never contains an empty category section.  Read on
the line decomposition of the output (for line-shaped inputs — no embedded
newlines in items, version, or date): (1) the lines starting with `### ` are
exactly `### <Category>` for the categories with non-empty buckets, in the
fixed Added/Changed/Deprecated/Removed/Fixed/Security order — so a category
header appears iff its item list is non-empty; (2) among the non-blank lines,
a `### ` header line is always immediately followed by a `- ` item line; and
(3) the last non-blank line is never a header, so no header is followed by
another header or by end-of-text with zero items between. -/
theorem c6_no_empty_category_sections (m : List (List Char × List (List Char)))
    (v d : List Char) (hv : ('\n' : Char) ∉ v) (hd : ('\n' : Char) ∉ d)
    (hm : ∀ p ∈ m, ∀ it ∈ p.2, ('\n' : Char) ∉ it) :
    (linesOf (format_changelog m v d)).filter (fun x => startsWithL "### ".toList x)
        = (orderedCategories.filter (fun c => !(dget m c).isEmpty)).map
            (fun c => "### ".toList ++ c) ∧
    List.Chain' (fun a b : List Char =>
        startsWithL "### ".toList a = true → startsWithL "- ".toList b = true)
      ((linesOf (format_changelog m v d)).filter (fun x => !x.isEmpty)) ∧
    ∀ x, ((linesOf (format_changelog m v d)).filter (fun x => !x.isEmpty)).getLast?
        = some x → startsWithL "### ".toList x = false := by
  have hkept : ∀ c ∈ keptCategories m, (dget m c).isEmpty = false := by
    intro c hcm
    have h2 := (List.mem_filter.mp hcm).2
    simpa using h2
  obtain ⟨hchain, hlast⟩ := chain_flatten_blocks m (keptCategories m) hkept
  refine ⟨?_, ?_, ?_⟩
  · rw [lines_of_format m v d hv hd hm, List.filter_append, List.filter_cons,
      show (startsWithL "### ".toList (headerLine v d)) = false from rfl,
      filter_hdr_flatten]
    simp [keptCategories, List.filter_cons,
      show (startsWithL "### ".toList ([] : List Char)) = false from rfl]
    rfl
  · rw [nonblank_lines_of_format m v d hv hd hm, List.chain'_cons']
    refine ⟨?_, hchain⟩
    intro y _ hc
    rw [show (startsWithL "### ".toList (headerLine v d)) = false from rfl] at hc
    exact absurd hc (by decide)
  · intro x hx
    rw [nonblank_lines_of_format m v d hv hd hm] at hx
    by_cases hrest : ((keptCategories m).map (nbBlockOf m)).flatten = []
    · rw [hrest] at hx
      simp [List.getLast?] at hx
      rw [← hx]
      rfl
    · have hsplit : headerLine v d :: ((keptCategories m).map (nbBlockOf m)).flatten
          = [headerLine v d] ++ ((keptCategories m).map (nbBlockOf m)).flatten := rfl
      rw [hsplit, List.getLast?_append_of_ne_nil _ hrest] at hx
      exact hlast x hx

theorem c6_no_empty_category_sections_witness :
    (('\n' : Char) ∉ "1.0.0".toList) ∧ (('\n' : Char) ∉ "2026-10-12".toList) ∧
    (∀ p ∈ [("Added".toList, ["login".toList]), ("Fixed".toList, ["crash".toList])],
      ∀ it ∈ p.2, ('\n' : Char) ∉ it) ∧
    ((linesOf (format_changelog
          [("Added".toList, ["login".toList]), ("Fixed".toList, ["crash".toList])]
          "1.0.0".toList "2026-10-12".toList)).filter
          (fun x => startsWithL "### ".toList x)
        = (orderedCategories.filter (fun c =>
            !(dget [("Added".toList, ["login".toList]), ("Fixed".toList, ["crash".toList])]
                c).isEmpty)).map (fun c => "### ".toList ++ c) ∧
      List.Chain' (fun a b : List Char =>
          startsWithL "### ".toList a = true → startsWithL "- ".toList b = true)
        ((linesOf (format_changelog
            [("Added".toList, ["login".toList]), ("Fixed".toList, ["crash".toList])]
            "1.0.0".toList "2026-10-12".toList)).filter (fun x => !x.isEmpty)) ∧
      ∀ x, ((linesOf (format_changelog
            [("Added".toList, ["login".toList]), ("Fixed".toList, ["crash".toList])]
            "1.0.0".toList "2026-10-12".toList)).filter (fun x => !x.isEmpty)).getLast?
          = some x → startsWithL "### ".toList x = false) :=
  ⟨by decide, by decide, by decide,
    c6_no_empty_category_sections
      [("Added".toList, ["login".toList]), ("Fixed".toList, ["crash".toList])]
      "1.0.0".toList "2026-10-12".toList (by decide) (by decide) (by decide)⟩
